import Mathlib

/-!
Verification development for the zstd-lines crate (src/src/lib.rs).

The decompressed byte stream is modelled as `List Nat` (each element a byte
value < 256; newline is 10).  The zstd decoder's successive `read` results
are modelled as a list of chunks `List (List Nat)`: each chunk is the
sequence of bytes one `decoder.read(&mut buffer)` call deposits into the
front of the 512-byte buffer (the loop ends when `read` returns 0, i.e.
when the chunk list is exhausted).  Handler invocations are modelled as the
list of emitted line contents (byte sequences of the decoded strings, which
for valid UTF-8 coincide with the raw bytes), in invocation order.
-/

set_option maxRecDepth 40000

namespace ZstdLines

/-- Model of a UTF-8 continuation byte test (0x80..0xBF). -/
def utf8Cont (b : Nat) : Bool := 128 ≤ b && b ≤ 191

/-- Model of Rust `String::from_utf8` validity (the exact UTF-8 well-formedness
check: ranges of lead bytes, overlong/surrogate/out-of-range exclusions). -/
def utf8Valid : List Nat → Bool
  | [] => true
  | b :: r =>
    if b < 128 then utf8Valid r
    else if b < 194 then false
    else if b < 224 then
      match r with
      | c1 :: r1 => utf8Cont c1 && utf8Valid r1
      | [] => false
    else if b < 240 then
      match r with
      | c1 :: c2 :: r2 =>
        (if b == 224 then 160 ≤ c1 && c1 ≤ 191
         else if b == 237 then 128 ≤ c1 && c1 ≤ 159
         else utf8Cont c1) && utf8Cont c2 && utf8Valid r2
      | _ => false
    else if b < 245 then
      match r with
      | c1 :: c2 :: c3 :: r3 =>
        (if b == 240 then 144 ≤ c1 && c1 ≤ 191
         else if b == 244 then 128 ≤ c1 && c1 ≤ 143
         else utf8Cont c1) && utf8Cont c2 && utf8Cont c3 && utf8Valid r3
      | _ => false
    else false

/-- `const TAR_BLOCK_SIZE: usize = 512;` -/
def TAR_BLOCK_SIZE : Nat := 512

/-- The ASCII bytes of the literal `b"ustar"`. -/
def ustarMagic : List Nat := [117, 115, 116, 97, 114]

/-- Embedding of `is_tar_header` (lib.rs 181-187): a block is a tar header
iff it is exactly 512 bytes long and bytes 257..262 equal `b"ustar"`. -/
def is_tar_header (block : List Nat) : Bool :=
  if block.length ≠ TAR_BLOCK_SIZE then false
  else decide ((block.drop 257).take 5 = ustarMagic)

/-- Effect of `decoder.read(&mut buffer)` on the persistent 512-byte buffer
(lib.rs 126,130): the chunk overwrites the first `chunk.length` bytes and the
rest of the buffer keeps its previous (stale) contents. -/
def fillBuf (buf chunk : List Nat) : List Nat := chunk ++ buf.drop chunk.length

/-- Embedding of the newline scan over `buffer[0..bytes_read]`
(lib.rs 148-167): returns the candidate lines, in order, each being the
remainder at entry (first line) or the bytes since the previous newline,
together with the new remainder (bytes after the last newline).  Decode
filtering happens at emission, not here; the remainder is cleared at every
newline regardless of whether the line decodes (lib.rs 159). -/
def scanBytes : List Nat → List Nat → List (List Nat) × List Nat
  | [], acc => ([], acc)
  | b :: r, acc =>
    if b = 10 then ((acc :: (scanBytes r []).1, (scanBytes r []).2))
    else scanBytes r (acc ++ [b])

/-- Emission of one candidate line: `String::from_utf8` succeeds and the
handler is called, or the line is silently dropped (lib.rs 140-142, 156-158). -/
def emitLine (l : List Nat) : List (List Nat) := if utf8Valid l then [l] else []

/-- Flush of the remainder used at a metadata block and after the loop
(lib.rs 139-144, 171-175): nothing if empty, otherwise decode-or-drop. -/
def flushRem (rem : List Nat) : List (List Nat) :=
  if rem.isEmpty then [] else emitLine rem

/-- Embedding of the read loop of `process_tar_zstd_file` (lib.rs 129-175),
parameterised by the remaining read chunks, the current 512-byte buffer
contents and the current remainder.  Classification uses the whole buffer
(`is_tar_header(&buffer)`), hence `fillBuf buf c`, while the newline scan
covers only `buffer[0..bytes_read]`, i.e. exactly the chunk just read. -/
def processReads : List (List Nat) → List Nat → List Nat → List (List Nat)
  | [], _, rem => flushRem rem
  | c :: rest, buf, rem =>
    if is_tar_header (fillBuf buf c) then
      flushRem rem ++ processReads rest (fillBuf buf c) []
    else
      (scanBytes c rem).1.filter utf8Valid ++
        processReads rest (fillBuf buf c) (scanBytes c rem).2

/-- Embedding of `process_tar_zstd_file` (lib.rs 119-178): the buffer starts
as `[0; TAR_BLOCK_SIZE]` and the remainder empty; the result is the list of
handler invocations (line contents, in order). -/
def process_tar_zstd_file (reads : List (List Nat)) : List (List Nat) :=
  processReads reads (List.replicate TAR_BLOCK_SIZE 0) []

/-- Strip one trailing carriage return (byte 13), as `BufRead::lines` does on
a line that ended with a newline. -/
def chopCr (l : List Nat) : List Nat :=
  if l.getLast? = some 13 then l.dropLast else l

/-- Embedding of the segments produced by `reader.lines()` over a decompressed
byte stream (lib.rs 108): split at newline bytes; a segment closed by a
newline has a trailing carriage return stripped; a final segment at end of
stream is produced only if non-empty and keeps any trailing carriage return.
`acc` is the portion of the current segment already consumed. -/
def plainSegsAux : List Nat → List Nat → List (List Nat)
  | [], acc => if acc.isEmpty then [] else [acc]
  | b :: r, acc =>
    if b = 10 then chopCr acc :: plainSegsAux r []
    else plainSegsAux r (acc ++ [b])

/-- The line segments of a plain decompressed stream. -/
def plainSegs (s : List Nat) : List (List Nat) := plainSegsAux s []

/-- Embedding of `process_zstd_file` (lib.rs 100-116): handler invocations
are exactly the segments that decode as valid UTF-8, in order. -/
def process_zstd_file (s : List Nat) : List (List Nat) :=
  (plainSegs s).filter utf8Valid

/-- Embedding of the error-channel reports of `process_zstd_file`
(lib.rs 111): one report per segment that fails to decode, in order. -/
def process_zstd_reports (s : List Nat) : List (List Nat) :=
  (plainSegs s).filter (fun l => ! utf8Valid l)

/-- Model of a file path as seen by `par_zstd_lines` (lib.rs 82): either the
path has no file-name component, or its file name is not valid UTF-8 (so
`to_str` fails), or it has an ordinary UTF-8 file name. -/
inductive MPath where
  | noName : MPath
  | nonUtf8Name : MPath
  | named (name : List Char) : MPath

/-- Embedding of Rust `Path::file_stem` on a UTF-8 file name: the portion
before the last dot, except that a dot at position 0 (hidden file with no
other dot) does not count as an extension separator. -/
def file_stem (name : List Char) : List Char :=
  match name.reverse.findIdx? (fun c => c = '.') with
  | none => name
  | some j =>
    if j = name.length - 1 then name
    else name.take (name.length - 1 - j)

/-- Embedding of `path.file_stem().and_then(|stem| stem.to_str())`
(lib.rs 82). -/
def stemOf : MPath → Option (List Char)
  | .noName => none
  | .nonUtf8Name => none
  | .named n => some (file_stem n)

/-- The archive suffix `".tar"` tested by `stem.ends_with(".tar")`. -/
def tarSuffix : List Char := ['.', 't', 'a', 'r']

/-- Embedding of the per-file body of `par_zstd_lines` (lib.rs 80-95):
result is the pair (handler invocations, per-line error reports).  A path
with no extractable stem does nothing; a stem ending in `".tar"` selects
`process_tar_zstd_file` (which never reports per-line failures); any other
stem selects `process_zstd_file` (whose per-line failures are reported).
Plain mode consumes the byte stream through a `BufReader`, so only the
concatenation of the read chunks matters there. -/
def processFile (p : MPath) (reads : List (List Nat)) :
    List (List Nat) × List (List Nat) :=
  match stemOf p with
  | none => ([], [])
  | some stem =>
    if tarSuffix.isSuffixOf stem then (process_tar_zstd_file reads, [])
    else (process_zstd_file reads.flatten, process_zstd_reports reads.flatten)

/-- Embedding of `par_zstd_lines` over a list of (path, read chunks) jobs:
the concatenation of every file's handler invocations (one arbitrary
interleaving; per-file order is preserved). -/
def par_zstd_lines (files : List (MPath × List (List Nat))) : List (List Nat) :=
  (files.map (fun f => (processFile f.1 f.2).1)).flatten

/-- Spec-side reassembly for the Plain-mode round-trip property: concatenate
lines with single newline separators. -/
def joinNl : List (List Nat) → List Nat
  | [] => []
  | [l] => l
  | l :: ls => l ++ 10 :: joinNl ls

/-- Absence of a carriage-return/newline pair (bytes 13,10) in a stream. -/
def noCrLf : List Nat → Bool
  | [] => true
  | [_] => true
  | a :: b :: r => !(a == 13 && b == 10) && noCrLf (b :: r)

/-- A 512-byte metadata block: zeros everywhere except the `ustar` magic at
offsets 257..261. -/
def mkMetaBlock : List Nat :=
  List.replicate 257 0 ++ ustarMagic ++ List.replicate 250 0

/-- The ten bytes of the string `"alpha\nbeta"`. -/
def alphaBetaBytes : List Nat := [97, 108, 112, 104, 97, 10, 98, 101, 116, 97]

/-! ## Helper lemmas -/

theorem scan_no_nl (c : List Nat) (h : 10 ∉ c) :
    ∀ acc, scanBytes c acc = ([], acc ++ c) := by
  induction c with
  | nil => intro acc; simp [scanBytes]
  | cons b r ih =>
    intro acc
    have hb : b ≠ 10 := fun e => h (by simp [e])
    have hr : 10 ∉ r := fun m => h (List.mem_cons_of_mem _ m)
    simp [scanBytes, hb, ih hr]

theorem scan_append (a b : List Nat) : ∀ acc, scanBytes (a ++ b) acc =
    ((scanBytes a acc).1 ++ (scanBytes b (scanBytes a acc).2).1,
     (scanBytes b (scanBytes a acc).2).2) := by
  induction a with
  | nil => intro acc; simp [scanBytes]
  | cons x r ih =>
    intro acc
    by_cases hx : x = 10
    · subst hx; simp [scanBytes, ih]
    · simp [scanBytes, hx, ih]

theorem plainSegsAux_split (bad : List Nat) (h : 10 ∉ bad) :
    ∀ acc rest, plainSegsAux (bad ++ 10 :: rest) acc =
      chopCr (acc ++ bad) :: plainSegsAux rest [] := by
  induction bad with
  | nil => intro acc rest; simp [plainSegsAux]
  | cons b r ih =>
    intro acc rest
    have hb : b ≠ 10 := fun e => h (by simp [e])
    have hr : 10 ∉ r := fun m => h (List.mem_cons_of_mem _ m)
    simp [plainSegsAux, hb, ih hr]

theorem plainSegsAux_ne_nil : ∀ (s acc : List Nat), s ≠ [] ∨ acc ≠ [] →
    plainSegsAux s acc ≠ [] := by
  intro s
  induction s with
  | nil =>
    intro acc h
    rcases h with h | h
    · exact absurd rfl h
    · simp [plainSegsAux, h]
  | cons b t ih =>
    intro acc _
    by_cases hb : b = 10
    · subst hb; simp [plainSegsAux]
    · simp only [plainSegsAux, if_neg hb]
      exact ih (acc ++ [b]) (Or.inr (by simp))

theorem getLast?_decomp : ∀ (l : List Nat) (a : Nat), l.getLast? = some a →
    ∃ u, l = u ++ [a] := by
  intro l
  induction l with
  | nil => intro a h; simp at h
  | cons b t ih =>
    intro a h
    cases t with
    | nil => simp [List.getLast?] at h; exact ⟨[], by simp [h]⟩
    | cons c t2 =>
      rw [List.getLast?_cons_cons] at h
      obtain ⟨u, hu⟩ := ih a h
      exact ⟨b :: u, by simp [hu]⟩

theorem getLast?_append_right : ∀ (l1 l2 : List Nat), l2 ≠ [] →
    (l1 ++ l2).getLast? = l2.getLast? := by
  intro l1
  induction l1 with
  | nil => intro l2 _; simp
  | cons x t ih =>
    intro l2 h
    have ht := ih l2 h
    have hne : t ++ l2 ≠ [] := by simp [h]
    cases e : t ++ l2 with
    | nil => exact absurd e hne
    | cons y r =>
      rw [List.cons_append, e, List.getLast?_cons_cons, ← e, ht]

theorem noCrLf_cons_true (x : Nat) (l : List Nat) (h : noCrLf (x :: l) = true) :
    noCrLf l = true := by
  cases l with
  | nil => rfl
  | cons y r =>
    simp only [noCrLf, Bool.and_eq_true] at h
    exact h.2

theorem noCrLf_append_right : ∀ (a b : List Nat), noCrLf (a ++ b) = true →
    noCrLf b = true := by
  intro a
  induction a with
  | nil => intro b h; simpa using h
  | cons x t ih =>
    intro b h
    exact ih b (noCrLf_cons_true x (t ++ b) h)

theorem noCrLf_crlf_false (u v : List Nat) : noCrLf (u ++ 13 :: 10 :: v) = false := by
  induction u with
  | nil => simp [noCrLf]
  | cons x u2 ih =>
    cases u2 with
    | nil => simp [noCrLf]
    | cons y u3 =>
      simp only [List.cons_append] at ih ⊢
      simp [noCrLf, ih]

theorem joinNl_cons (l : List Nat) (ls : List (List Nat)) (h : ls ≠ []) :
    joinNl (l :: ls) = l ++ 10 :: joinNl ls := by
  cases ls with
  | nil => exact absurd rfl h
  | cons x xs => rfl

theorem roundtripAux : ∀ (s acc : List Nat), 10 ∉ acc →
    noCrLf (acc ++ s) = true →
    joinNl (plainSegsAux s acc) ++
      (if (acc ++ s).getLast? = some 10 then [10] else []) = acc ++ s := by
  intro s
  induction s with
  | nil =>
    intro acc h10 _
    by_cases ha : acc = []
    · subst ha; simp [plainSegsAux, joinNl]
    · have hne : acc.isEmpty = false := by simp [ha]
      have hg : acc.getLast? ≠ some 10 := by
        intro e
        obtain ⟨u, hu⟩ := getLast?_decomp acc 10 e
        exact h10 (by rw [hu]; simp)
      simp [plainSegsAux, hne, joinNl, hg]
  | cons b t ih =>
    intro acc h10 hcr
    by_cases hb : b = 10
    · subst hb
      have hne13 : acc.getLast? ≠ some 13 := by
        intro e
        obtain ⟨u, hu⟩ := getLast?_decomp acc 13 e
        rw [hu, List.append_assoc] at hcr
        simp only [List.singleton_append] at hcr
        rw [noCrLf_crlf_false u t] at hcr
        exact Bool.false_ne_true hcr
      have hchop : chopCr acc = acc := by simp [chopCr, hne13]
      cases t with
      | nil =>
        have hseg : plainSegsAux [10] acc = [chopCr acc] := by simp [plainSegsAux]
        rw [hseg, hchop, getLast?_append_right acc [10] (by simp)]
        simp [joinNl]
      | cons c t2 =>
        have hseg : plainSegsAux (10 :: c :: t2) acc =
            chopCr acc :: plainSegsAux (c :: t2) [] := by
          simp [plainSegsAux]
        have hnn : plainSegsAux (c :: t2) [] ≠ [] :=
          plainSegsAux_ne_nil _ _ (Or.inl (by simp))
        have hcr2 : noCrLf (c :: t2) = true := by
          have := noCrLf_append_right (acc ++ [10]) (c :: t2)
            (by simpa [List.append_assoc] using hcr)
          exact this
        have hih := ih [] (by simp) (by simpa using hcr2)
        simp only [List.nil_append] at hih
        rw [hseg, hchop, joinNl_cons _ _ hnn]
        rw [getLast?_append_right acc (10 :: c :: t2) (by simp),
          List.getLast?_cons_cons]
        rw [List.append_assoc]
        simp only [List.cons_append, List.nil_append]
        rw [hih]
    · have hseg : plainSegsAux (b :: t) acc = plainSegsAux t (acc ++ [b]) := by
        simp [plainSegsAux, hb]
      have h10b : 10 ∉ acc ++ [b] := by
        intro hmem
        rcases List.mem_append.mp hmem with hm | hm
        · exact h10 hm
        · simp at hm; exact hb hm.symm
      have hacc : acc ++ [b] ++ t = acc ++ b :: t := by simp
      have := ih (acc ++ [b]) h10b (by rw [hacc]; exact hcr)
      rw [hseg]
      rw [hacc] at this
      exact this

/-! ## Claim theorems -/

/-- C1: evaluation of the code at the spec's concrete Archive-mode scenario.
The decompressed stream is one 512-byte metadata block (magic `ustar` at
offset 257) followed by the 10 bytes of `"alpha\nbeta"`, delivered by the
decoder as a 512-byte read and then a 10-byte read.  The claim says the
handler is invoked exactly twice, with `"alpha"` and then `"beta"`; the code
invokes it zero times, because the 10-byte read leaves the previous block's
`ustar` magic at offsets 257..261 of the reused buffer, so the payload block
is misclassified as metadata and skipped. -/
theorem c1_concrete_scenario_eval :
    process_tar_zstd_file [mkMetaBlock, alphaBetaBytes] = [] ∧
    process_tar_zstd_file [mkMetaBlock, alphaBetaBytes] ≠
      [[97, 108, 112, 104, 97], [98, 101, 116, 97]] := by
  constructor
  · rfl
  · intro h
    exact absurd (rfl.trans h : ([] : List (List Nat)) = _) (by decide)

/-- C2: in Archive mode the classifier decides metadata status solely from
the 5 bytes at offsets 257..261 of the full fixed 512-byte buffer: on a
512-byte block it returns true iff those bytes equal `ustar`; two 512-byte
blocks agreeing on those bytes are classified alike; a read shorter than the
buffer leaves the tail of the previous contents in place, and the read loop
classifies that full buffer (so stale bytes, magic included, are inspected:
the last conjunct shows a 1-byte read over a previous metadata block still
classifying as metadata). -/
theorem c2_classifier_magic_only :
    (∀ b : List Nat, b.length = 512 →
      (is_tar_header b = true ↔ (b.drop 257).take 5 = ustarMagic)) ∧
    (∀ b1 b2 : List Nat, b1.length = 512 → b2.length = 512 →
      (b1.drop 257).take 5 = (b2.drop 257).take 5 →
      is_tar_header b1 = is_tar_header b2) ∧
    (∀ buf c : List Nat, c.length ≤ buf.length →
      (fillBuf buf c).length = buf.length ∧
      (fillBuf buf c).drop c.length = buf.drop c.length) ∧
    (∀ c rest buf rem, processReads (c :: rest) buf rem =
      if is_tar_header (fillBuf buf c) then
        flushRem rem ++ processReads rest (fillBuf buf c) []
      else (scanBytes c rem).1.filter utf8Valid ++
        processReads rest (fillBuf buf c) (scanBytes c rem).2) ∧
    is_tar_header (fillBuf mkMetaBlock [97]) = true := by
  refine ⟨?_, ?_, ?_, ?_, ?_⟩
  · intro b h
    simp [is_tar_header, TAR_BLOCK_SIZE, h]
  · intro b1 b2 h1 h2 h12
    simp only [is_tar_header, TAR_BLOCK_SIZE, h1, h2, ne_eq, not_true_eq_false,
      if_false]
    rw [h12]
  · intro buf c h
    constructor
    · simp only [fillBuf, List.length_append, List.length_drop]
      omega
    · simp [fillBuf, List.drop_left]
  · intro c rest buf rem
    rfl
  · rfl

/-- C2 witness: the classifier applied to a concrete full metadata block. -/
theorem c2_classifier_magic_only_witness :
    is_tar_header mkMetaBlock = true ↔ (mkMetaBlock.drop 257).take 5 = ustarMagic :=
  c2_classifier_magic_only.1 mkMetaBlock (by rfl)

/-- C3: a block classified as metadata contributes no Logical Lines from
its own bytes and acts as a flush point: the step of the read loop on a
metadata block emits exactly the flush of the remainder (one line if the
remainder is non-empty and decodes, nothing otherwise), clears the
remainder, and never scans the block's bytes for newlines; a stream that is
a single 512-byte metadata block followed by end-of-stream yields zero
handler invocations. -/
theorem c3_metadata_block_flush :
    (∀ c rest buf rem, is_tar_header (fillBuf buf c) = true →
      processReads (c :: rest) buf rem =
        flushRem rem ++ processReads rest (fillBuf buf c) []) ∧
    process_tar_zstd_file [mkMetaBlock] = [] := by
  constructor
  · intro c rest buf rem h
    simp [processReads, h]
  · rfl

/-- C3 witness: the step applied to a concrete metadata block with a
non-empty pending remainder, which is flushed as the single line `"a"`. -/
theorem c3_metadata_block_flush_witness :
    processReads [mkMetaBlock] (List.replicate 512 0) [97] =
      flushRem [97] ++ processReads [] (fillBuf (List.replicate 512 0) mkMetaBlock) [] :=
  c3_metadata_block_flush.1 mkMetaBlock [] (List.replicate 512 0) [97] (by rfl)

/-- C4 counterexample: the Plain-mode round-trip fails as universally stated.
On the decompressed text `"a\r\nb"` the reader strips the carriage return
before the newline, so the emitted lines are `"a"` and `"b"` and no
newline-reassembly reproduces the original bytes. -/
theorem c4_roundtrip_cex :
    process_zstd_file [97, 13, 10, 98] = [[97], [98]] ∧
    joinNl (process_zstd_file [97, 13, 10, 98]) ++
        (if ([97, 13, 10, 98] : List Nat).getLast? = some 10 then [10] else []) ≠
      [97, 13, 10, 98] := by
  constructor
  · rfl
  · decide

/-- C4 (amended): for every Plain-mode decompressed stream that contains no
carriage-return/newline pair and all of whose line segments decode as valid
UTF-8, concatenating the emitted lines with newline separators (restoring
the trailing newline exactly when the stream ends with one) reproduces the
original decompressed text; in particular a final line lacking a trailing
newline is still emitted as the last line. -/
theorem c4_plain_roundtrip (s : List Nat) (hcr : noCrLf s = true)
    (hv : ∀ l ∈ plainSegs s, utf8Valid l = true) :
    joinNl (process_zstd_file s) ++
      (if s.getLast? = some 10 then [10] else []) = s := by
  have hfe : process_zstd_file s = plainSegs s := by
    unfold process_zstd_file
    exact List.filter_eq_self.mpr hv
  rw [hfe]
  have := roundtripAux s [] (by simp) (by simpa using hcr)
  simpa using this

/-- C4 witness: the round-trip at the concrete stream `"x\ny"`. -/
theorem c4_plain_roundtrip_witness :
    joinNl (process_zstd_file [120, 10, 121]) ++
        (if ([120, 10, 121] : List Nat).getLast? = some 10 then [10] else []) =
      [120, 10, 121] :=
  c4_plain_roundtrip [120, 10, 121] (by decide) (by decide)

/-- C5: a line split across two consecutive payload blocks is carried through
the remainder and emitted as one unbroken Logical Line, identical to the
non-split case.  First conjunct: the newline scan over a concatenation of two
byte runs emits exactly the lines of the two runs scanned in sequence, the
remainder carrying over (so a boundary inside a line is invisible).  Second
conjunct: two consecutive payload blocks in the read loop emit exactly the
lines of the single combined block scanned from the same remainder. -/
theorem c5_cross_block_line :
    (∀ a b acc : List Nat, scanBytes (a ++ b) acc =
      ((scanBytes a acc).1 ++ (scanBytes b (scanBytes a acc).2).1,
       (scanBytes b (scanBytes a acc).2).2)) ∧
    (∀ c1 c2 rest buf rem,
      is_tar_header (fillBuf buf c1) = false →
      is_tar_header (fillBuf (fillBuf buf c1) c2) = false →
      processReads (c1 :: c2 :: rest) buf rem =
        (scanBytes (c1 ++ c2) rem).1.filter utf8Valid ++
          processReads rest (fillBuf (fillBuf buf c1) c2)
            (scanBytes (c1 ++ c2) rem).2) := by
  constructor
  · intro a b acc
    exact scan_append a b acc
  · intro c1 c2 rest buf rem h1 h2
    simp [processReads, h1, h2, scan_append, List.filter_append]

/-- C5 witness: the line `"alpha"` split as `"al"` + `"pha\n"` across two
consecutive payload blocks. -/
theorem c5_cross_block_line_witness :
    processReads [[97, 108], [112, 104, 97, 10]] (List.replicate 512 0) [] =
      (scanBytes ([97, 108] ++ [112, 104, 97, 10]) []).1.filter utf8Valid ++
        processReads []
          (fillBuf (fillBuf (List.replicate 512 0) [97, 108]) [112, 104, 97, 10])
          (scanBytes ([97, 108] ++ [112, 104, 97, 10]) []).2 :=
  c5_cross_block_line.2 [97, 108] [112, 104, 97, 10] [] (List.replicate 512 0) []
    (by rfl) (by rfl)

/-- C6 counterexample: a file ending without a trailing newline does not
always yield its trailing bytes as a final Logical Line.  After a metadata
block, a short final read (here the two bytes `"xy"`) leaves the stale
`ustar` magic in the reused buffer, the final block is misclassified as
metadata, and the trailing bytes are never emitted. -/
theorem c6_trailing_bytes_cex :
    process_tar_zstd_file [mkMetaBlock, [120, 121]] = [] ∧
    process_tar_zstd_file [mkMetaBlock, [120, 121]] ≠ [[120, 121]] := by
  constructor
  · rfl
  · intro h
    exact absurd (rfl.trans h : ([] : List (List Nat)) = _) (by decide)

/-- C6 (amended): after the read loop terminates at end of stream, a
non-empty Remainder Buffer is emitted as exactly one final Logical Line
(decode-or-drop) and an empty Remainder Buffer yields no extra invocation;
consequently a file whose final read is classified as payload (not
misclassified through stale magic bytes) and carries no newline still yields
its trailing bytes, prefixed by the pending remainder, as one final Logical
Line. -/
theorem c6_final_flush :
    (∀ buf rem, processReads [] buf rem = flushRem rem) ∧
    (∀ c buf rem, is_tar_header (fillBuf buf c) = false → 10 ∉ c →
      rem ++ c ≠ [] → utf8Valid (rem ++ c) = true →
      processReads [c] buf rem = [rem ++ c]) := by
  constructor
  · intro buf rem
    rfl
  · intro c buf rem h1 h2 h3 h4
    simp [processReads, h1, scan_no_nl c h2, flushRem, emitLine, h3, h4]

/-- C6 witness: the final payload read `"beta"` with no trailing newline is
emitted as the one final line. -/
theorem c6_final_flush_witness :
    processReads [[98, 101, 116, 97]] (List.replicate 512 0) [] =
      [[] ++ [98, 101, 116, 97]] :=
  c6_final_flush.2 [98, 101, 116, 97] (List.replicate 512 0) []
    (by rfl) (by decide) (by decide) (by decide)

/-- C7: dropping an undecodable line still clears the Remainder Buffer.  In
a payload block consisting of an invalid line (the pending remainder plus
`bad`) followed by a valid line `good`, the invalid line is dropped, yet the
next line is emitted exactly as `good`: no stale remainder bytes leak into
it, and the block ends with an empty remainder. -/
theorem c7_drop_clears_remainder (bad good buf rem : List Nat)
    (h1 : is_tar_header (fillBuf buf (bad ++ 10 :: (good ++ [10]))) = false)
    (h2 : 10 ∉ bad) (h3 : 10 ∉ good)
    (h4 : utf8Valid (rem ++ bad) = false) (h5 : utf8Valid good = true) :
    processReads [bad ++ 10 :: (good ++ [10])] buf rem = [good] := by
  have hscan : scanBytes (bad ++ 10 :: (good ++ [10])) rem =
      ([rem ++ bad, good], []) := by
    rw [scan_append bad (10 :: (good ++ [10])) rem, scan_no_nl bad h2]
    simp only [scanBytes, if_pos rfl]
    rw [scan_append good [10] [], scan_no_nl good h3]
    simp [scanBytes]
  simp [processReads, h1, hscan, h4, h5, flushRem]

/-- C7 witness: an invalid byte `0xFF` line followed by the valid line
`"ok"` in one payload block; only `"ok"` is emitted. -/
theorem c7_drop_clears_remainder_witness :
    processReads [[255] ++ 10 :: ([111, 107] ++ [10])] (List.replicate 512 0) [] =
      [[111, 107]] :=
  c7_drop_clears_remainder [255] [111, 107] (List.replicate 512 0) []
    (by rfl) (by decide) (by decide) (by decide) (by decide)

/-- C8: a line-decode failure is local and recoverable.  First conjunct
(Plain mode): an undecodable leading line is dropped, one report naming it
goes to the error channel, and the remaining stream is processed exactly as
if it stood alone.  Second conjunct (Archive mode): an undecodable leading
line in a payload scan occupies one candidate slot and the rest of the scan
proceeds from a fresh empty remainder, so subsequent lines are unaffected.
Third conjunct: an Archive-mode file never contributes per-line reports to
the error channel (the Plain/Archive reporting asymmetry). -/
theorem c8_decode_failure_local :
    (∀ bad rest : List Nat, 10 ∉ bad → utf8Valid (chopCr bad) = false →
      process_zstd_file (bad ++ 10 :: rest) = process_zstd_file rest ∧
      process_zstd_reports (bad ++ 10 :: rest) =
        chopCr bad :: process_zstd_reports rest) ∧
    (∀ rem bad rest : List Nat, 10 ∉ bad →
      (scanBytes (bad ++ 10 :: rest) rem).1 =
        (rem ++ bad) :: (scanBytes rest []).1 ∧
      (scanBytes (bad ++ 10 :: rest) rem).2 = (scanBytes rest []).2) ∧
    (∀ p rs s, stemOf p = some s → tarSuffix.isSuffixOf s = true →
      (processFile p rs).2 = []) := by
  refine ⟨?_, ?_, ?_⟩
  · intro bad rest hnl hbad
    have hsegs : plainSegs (bad ++ 10 :: rest) = chopCr bad :: plainSegs rest := by
      unfold plainSegs
      simpa using plainSegsAux_split bad hnl [] rest
    constructor
    · simp [process_zstd_file, hsegs, hbad]
    · simp [process_zstd_reports, hsegs, hbad]
  · intro rem bad rest hnl
    rw [scan_append bad (10 :: rest) rem, scan_no_nl bad hnl]
    simp [scanBytes]
  · intro p rs s h1 h2
    simp [processFile, h1, h2]

/-- C8 witness: the invalid line `0xFF` followed by the valid line `"x"` in
Plain mode: the bad line is dropped and reported, `"x"` still emitted. -/
theorem c8_decode_failure_local_witness :
    process_zstd_file ([255] ++ 10 :: [120, 10]) = process_zstd_file [120, 10] ∧
    process_zstd_reports ([255] ++ 10 :: [120, 10]) =
      chopCr [255] :: process_zstd_reports [120, 10] :=
  c8_decode_failure_local.1 [255] [120, 10] (by decide) (by decide)

/-- C9: the processing mode is chosen once per file from the filename alone,
before any bytes are read, and is fixed for the whole file: whenever a stem
is extracted, the file is processed by the Archive-mode reader exactly when
the stem (the file name with its outer extension removed) ends in `".tar"`,
and by the Plain-mode reader otherwise, independently of the stream
contents; concretely `"file.jsonl.tar.zst"` selects Archive mode and
`"file.jsonl.zst"` selects Plain mode. -/
theorem c9_mode_selection :
    (∀ p rs s, stemOf p = some s →
      processFile p rs =
        if tarSuffix.isSuffixOf s then (process_tar_zstd_file rs, [])
        else (process_zstd_file rs.flatten, process_zstd_reports rs.flatten)) ∧
    (∀ rs, processFile (.named "file.jsonl.tar.zst".toList) rs =
      (process_tar_zstd_file rs, [])) ∧
    (∀ rs, processFile (.named "file.jsonl.zst".toList) rs =
      (process_zstd_file rs.flatten, process_zstd_reports rs.flatten)) := by
  refine ⟨?_, ?_, ?_⟩
  · intro p rs s h
    simp [processFile, h]
  · intro rs
    rfl
  · intro rs
    rfl

/-- C9 witness: the mode-selection rule applied to the concrete archive-named
file. -/
theorem c9_mode_selection_witness :
    processFile (.named "file.jsonl.tar.zst".toList) [[120]] =
      if tarSuffix.isSuffixOf (file_stem "file.jsonl.tar.zst".toList) then
        (process_tar_zstd_file [[120]], [])
      else (process_zstd_file [[120]].flatten, process_zstd_reports [[120]].flatten) :=
  c9_mode_selection.1 (.named "file.jsonl.tar.zst".toList) [[120]]
    (file_stem "file.jsonl.tar.zst".toList) (by rfl)

/-- C10: a path from which no UTF-8 filename stem can be extracted is
silently skipped: it produces no handler invocations and no error-channel
reports, and removing it from a job list leaves every other file's handler
invocations unchanged. -/
theorem c10_skip_stemless (p : MPath) (rs : List (List Nat))
    (files1 files2 : List (MPath × List (List Nat)))
    (h : stemOf p = none) :
    processFile p rs = ([], []) ∧
    par_zstd_lines (files1 ++ (p, rs) :: files2) =
      par_zstd_lines (files1 ++ files2) := by
  have h0 : processFile p rs = ([], []) := by
    cases p with
    | noName => rfl
    | nonUtf8Name => rfl
    | named n => simp [stemOf] at h
  refine ⟨h0, ?_⟩
  simp [par_zstd_lines, h0]

/-- C10 witness: a stemless path inserted before a plain file contributes
nothing and leaves the other file's output unchanged. -/
theorem c10_skip_stemless_witness :
    processFile MPath.noName [[97]] = ([], []) ∧
    par_zstd_lines ([] ++ (MPath.noName, [[97]]) ::
        [(MPath.named "a.zst".toList, [[120, 10]])]) =
      par_zstd_lines ([] ++ [(MPath.named "a.zst".toList, [[120, 10]])]) :=
  c10_skip_stemless MPath.noName [[97]] []
    [(MPath.named "a.zst".toList, [[120, 10]])] (by rfl)

end ZstdLines
